import Mathlib

/-!
Verification of the serving/training API of the image-classification package
(`imgclas/api.py`), via a shallow embedding of its request handling logic:
snapshot and checkpoint selection, the lazily loaded inference state, request
validators, the temporary-file lifecycle of local-file prediction, training
configuration merging, and the metadata endpoint.

Python dictionaries are embedded as association lists, `os`-level filesystem
views as explicit lists of names, and exceptions as an `Except` monad over a
`PyExc` type.
-/

namespace ImgSpec

/-- Python exceptions surfaced by the API code. `badRequest` embeds
`werkzeug.exceptions.BadRequest`. -/
inductive PyExc
  | badRequest (msg : String)
  | keyError (key : String)
  | valueError (msg : String)
  | indexError
  | attributeError
  deriving DecidableEq, Repr

instance {ε α : Type} [DecidableEq ε] [DecidableEq α] : DecidableEq (Except ε α)
  | .ok a, .ok b => decidable_of_iff (a = b) (by simp)
  | .ok _, .error _ => isFalse (by simp)
  | .error _, .ok _ => isFalse (by simp)
  | .error a, .error b => decidable_of_iff (a = b) (by simp)

/-- Message of `BadRequest` raised when `./models` has no timestamp directory
(api.py lines 74-76). -/
def noModelsMsg : String :=
  "You have no models in your ./models folder to be used for inference. Therefore the API can only be used for training."

/-- Message of `BadRequest` raised when the checkpoints directory is empty
(api.py lines 88-90). -/
def noCkptsMsg (ts : String) : String :=
  "You have no checkpoints in your ./models/" ++ ts ++ "/ckpts folder to be used for inference. Therefore the API can only be used for training."

/-- String order decided through the character lists, so that it evaluates
inside the kernel (the builtin iterator-based decision procedure does not). -/
def strLeDec : DecidableRel (fun a b : String => a ≤ b) := fun a b =>
  decidable_of_iff (a.data ≤ b.data) (@String.le_iff_toList_le a b).symm

/-- The Python builtin `sorted` on a list of strings (ascending lexicographic
order on code points, the linear order on `String`). -/
def pySorted (l : List String) : List String :=
  @List.insertionSort String (fun a b => a ≤ b) strLeDec l

/-- Python `sorted(l)[-1]`: last element of the sorted list, raising
`IndexError` when the list is empty. -/
def pyLastSorted (l : List String) : Except PyExc String :=
  match (pySorted l).getLast? with
  | some x => .ok x
  | none => .error .indexError

/-- Python `s.endswith(t)`: `t` is a suffix of `s`. -/
def pyEndsWith (s t : String) : Bool :=
  List.isSuffixOf t.data s.data

/-- Embeds the timestamp (snapshot) selection step of `load_inference_model`
(api.py lines 72-83): `timestamps = next(os.walk(models_dir))[1]`; empty →
`BadRequest`; if the name `api` is among them it is chosen; else `sorted(timestamps)[-1]`. -/
def selectSnapshot (timestamps : List String) : Except PyExc String :=
  if timestamps = [] then .error (.badRequest noModelsMsg)
  else if "api" ∈ timestamps then .ok "api"
  else pyLastSorted timestamps

/-- Embeds the checkpoint selection step of `load_inference_model`
(api.py lines 85-96): `ckpts = os.listdir(...)`; empty → `BadRequest`;
if the name `final_model.h5` is present it is chosen; else the last of
the sorted names passing the `endswith` test against the literal `*.h5`.
The filter keeps only names ending in the four-character literal `*.h5`. -/
def selectCheckpoint (ts : String) (ckpts : List String) : Except PyExc String :=
  if ckpts = [] then .error (.badRequest (noCkptsMsg ts))
  else if "final_model.h5" ∈ ckpts then .ok "final_model.h5"
  else pyLastSorted (ckpts.filter (fun name => pyEndsWith name "*.h5"))

/-- Every member of a `≤`-sorted list is `≤` its last element. -/
theorem mem_le_getLast {α : Type} [LinearOrder α] :
    ∀ (s : List α), s.Sorted (fun a b => a ≤ b) →
      ∀ x ∈ s, ∀ (h : s ≠ []), x ≤ s.getLast h
  | [], _, x, hx, h => absurd rfl h
  | a :: t, hs, x, hx, h => by
    rcases List.sorted_cons.mp hs with ⟨ha, ht⟩
    cases t with
    | nil =>
      have : x = a := by simpa using hx
      simp [this]
    | cons b t' =>
      rw [List.getLast_cons (List.cons_ne_nil b t')]
      rcases List.mem_cons.mp hx with hxa | hxt
      · subst hxa
        exact ha _ (List.getLast_mem (List.cons_ne_nil b t'))
      · exact mem_le_getLast (b :: t') ht x hxt (List.cons_ne_nil b t')

/-- `pyLastSorted` of a non-empty list returns a maximum element. -/
theorem pyLastSorted_max (l : List String) (h : l ≠ []) :
    ∃ m, pyLastSorted l = .ok m ∧ m ∈ l ∧ ∀ x ∈ l, x ≤ m := by
  have hperm : List.Perm (pySorted l) l :=
    @List.perm_insertionSort String (fun a b => a ≤ b) strLeDec l
  have hne : pySorted l ≠ [] := by
    intro hcon
    apply h
    have hl : List.Perm l (pySorted l) := hperm.symm
    rw [hcon] at hl
    exact hl.eq_nil
  have hsorted : (pySorted l).Sorted (fun a b => a ≤ b) :=
    @List.sorted_insertionSort String (fun a b => a ≤ b) strLeDec
      inferInstance inferInstance l
  refine ⟨(pySorted l).getLast hne, ?_, ?_, ?_⟩
  · unfold pyLastSorted
    rw [List.getLast?_eq_getLast _ hne]
  · exact hperm.mem_iff.mp (List.getLast_mem hne)
  · intro x hx
    exact mem_le_getLast _ hsorted x (hperm.mem_iff.mpr hx) hne

/-- **C3**: snapshot selection returns `"api"` when present, otherwise the
lexicographically greatest timestamp; the empty set fails with the
no-models `BadRequest`. -/
theorem selectSnapshot_policy (timestamps : List String) :
    (timestamps = [] → selectSnapshot timestamps = .error (.badRequest noModelsMsg)) ∧
    (timestamps ≠ [] → "api" ∈ timestamps →
      selectSnapshot timestamps = .ok "api") ∧
    (timestamps ≠ [] → "api" ∉ timestamps →
      ∃ m, selectSnapshot timestamps = .ok m ∧ m ∈ timestamps ∧
        ∀ x ∈ timestamps, x ≤ m) := by
  refine ⟨?_, ?_, ?_⟩
  · intro he
    subst he
    rfl
  · intro hne hapi
    unfold selectSnapshot
    rw [if_neg hne, if_pos hapi]
  · intro hne hapi
    unfold selectSnapshot
    rw [if_neg hne, if_neg hapi]
    exact pyLastSorted_max timestamps hne

/-- Witness for `selectSnapshot_policy` at the example inputs given in the spec. -/
theorem selectSnapshot_policy_witness :
    (selectSnapshot ["2018-01-01", "api", "2019-05-05"] = .ok "api") ∧
    (∃ m, selectSnapshot ["2018-01-01", "2019-05-05"] = .ok m ∧
      m ∈ ["2018-01-01", "2019-05-05"] ∧ ∀ x ∈ ["2018-01-01", "2019-05-05"], x ≤ m) :=
  ⟨(selectSnapshot_policy ["2018-01-01", "api", "2019-05-05"]).2.1
      (by decide) (by decide),
   (selectSnapshot_policy ["2018-01-01", "2019-05-05"]).2.2
      (by decide) (by decide)⟩

/-- **C1**: at the failing input `{"epoch-01.h5","epoch-09.h5"}` (no
`final_model.h5`), checkpoint selection raises `IndexError` instead of
returning `"epoch-09.h5"`: the `endswith` filter matches only
names ending in the literal `*.h5`, so the list fed to `sorted(...)[-1]` is
empty. With `final_model.h5` present the preferred name is still returned. -/
theorem selectCheckpoint_star_bug :
    selectCheckpoint "t" ["epoch-01.h5", "epoch-09.h5"] = .error .indexError ∧
    selectCheckpoint "t" ["epoch-01.h5", "epoch-09.h5", "final_model.h5"] =
      .ok "final_model.h5" := by
  constructor
  · rfl
  · rfl

/-- Embeds the class-metadata resolution of `load_inference_model`
(api.py lines 101-113): `class_info = None`; when `info.txt` is listed in
the splits directory its lines are loaded (the `Option` argument); when the
loaded length differs from the class-name count a warning is printed and
`class_info` is reset to `None`; a `None` `class_info` finally becomes a
list of empty strings, one per class name. -/
def resolveClassInfo (class_names : List String) (info_lines : Option (List String)) :
    List String :=
  match info_lines with
  | none => List.replicate class_names.length ""
  | some info =>
      if info.length ≠ class_names.length then List.replicate class_names.length ""
      else info

/-- Python list indexing `l[i]` for a non-negative index: `IndexError` when
out of range. -/
def pyIndex {α : Type} (l : List α) (i : Nat) : Except PyExc α :=
  match l.get? i with
  | some a => .ok a
  | none => .error .indexError

/-- One entry of the `predictions` list built by `format_prediction`
(api.py lines 242-262). The probability type `P` is abstract: numbers come
from the external inference runtime. -/
structure Prediction (P : Type) where
  label_id : Nat
  label : String
  probability : P
  google_link : String
  wikipedia_link : String
  metadata : String

/-- `image_link` (api.py lines 265-272): fixed search endpoint plus the
url-encoded query; `requests.compat.urlencode` is an external library
routine, passed in as `urlenc`. -/
def image_link (urlenc : List (String × String) → String) (pred_lab : String) : String :=
  "https://www.google.es/search?" ++ urlenc [("tbm", "isch"), ("q", pred_lab)]

/-- `wikipedia_link` (api.py lines 275-281): fixed base path plus the label
with each space replaced by an underscore. -/
def wikipedia_link (pred_lab : String) : String :=
  "https://en.wikipedia.org/wiki/" ++
    String.mk (pred_lab.data.map (fun c => if c = ' ' then '_' else c))

/-- One iteration of the `format_prediction` loop (api.py lines 248-261):
`name = class_names[label_id]`, the links, and
`metadata: class_info[label_id]`. -/
def format_one {P : Type} (urlenc : List (String × String) → String)
    (class_names class_info : List String) (lp : Nat × P) :
    Except PyExc (Prediction P) :=
  match pyIndex class_names lp.1 with
  | .error e => .error e
  | .ok name =>
    match pyIndex class_info lp.1 with
    | .error e => .error e
    | .ok md =>
        .ok { label_id := lp.1
              label := name
              probability := lp.2
              google_link := image_link urlenc name
              wikipedia_link := wikipedia_link name
              metadata := md }

/-- The `format_prediction` loop over the zipped labels and probabilities
(api.py lines 248-261), appending one entry per pair. -/
def format_list {P : Type} (urlenc : List (String × String) → String)
    (class_names class_info : List String) :
    List (Nat × P) → Except PyExc (List (Prediction P))
  | [] => .ok []
  | lp :: rest =>
    match format_one urlenc class_names class_info lp with
    | .error e => .error e
    | .ok p =>
      match format_list urlenc class_names class_info rest with
      | .error e => .error e
      | .ok ps => .ok (p :: ps)

/-- `format_prediction` (api.py lines 242-262): zip the label ids with the
probabilities and build the prediction entries. -/
def format_prediction {P : Type} (urlenc : List (String × String) → String)
    (class_names class_info : List String) (labels : List Nat) (probs : List P) :
    Except PyExc (List (Prediction P)) :=
  format_list urlenc class_names class_info (labels.zip probs)

/-- When every label id is in range and the metadata list is the all-empty
default, formatting succeeds and every entry carries empty metadata. -/
theorem format_list_replicate {P : Type} (urlenc : List (String × String) → String)
    (class_names : List String) :
    ∀ (l : List (Nat × P)), (∀ p ∈ l, p.1 < class_names.length) →
      ∃ preds, format_list urlenc class_names
          (List.replicate class_names.length "") l = .ok preds ∧
        ∀ p ∈ preds, p.metadata = ""
  | [], _ => ⟨[], rfl, by simp⟩
  | lp :: rest, hall => by
    have h1 : lp.1 < class_names.length := hall lp (List.mem_cons_self lp rest)
    obtain ⟨name, hname⟩ : ∃ name, class_names.get? lp.1 = some name :=
      ⟨class_names.get ⟨lp.1, h1⟩, List.get?_eq_get h1⟩
    have hmd : (List.replicate class_names.length ("" : String)).get? lp.1 = some "" := by
      have hlen : lp.1 < (List.replicate class_names.length ("" : String)).length := by
        simpa using h1
      rw [List.get?_eq_get hlen]
      simp
    obtain ⟨preds, hpreds, hempty⟩ :=
      format_list_replicate urlenc class_names rest
        (fun p hp => hall p (List.mem_cons_of_mem lp hp))
    refine ⟨{ label_id := lp.1
              label := name
              probability := lp.2
              google_link := image_link urlenc name
              wikipedia_link := wikipedia_link name
              metadata := "" } :: preds, ?_, ?_⟩
    · simp only [format_list, format_one, pyIndex, hname, hmd, hpreds]
    · intro p hp
      rcases List.mem_cons.mp hp with hpe | hpr
      · subst hpe
        rfl
      · exact hempty p hpr

/-- **C4**: when `info.txt` exists but its line count differs from the
class-name count, the metadata list is replaced wholesale by empty strings
of the class-name length, and every formatted prediction carries empty
metadata; no entry of the mismatched list survives. -/
theorem class_info_mismatch_degrades {P : Type}
    (urlenc : List (String × String) → String)
    (class_names info : List String) (labels : List Nat) (probs : List P)
    (hmis : info.length ≠ class_names.length)
    (hvalid : ∀ l ∈ labels, l < class_names.length) :
    resolveClassInfo class_names (some info) = List.replicate class_names.length "" ∧
    ∃ preds,
      format_prediction urlenc class_names (resolveClassInfo class_names (some info))
          labels probs = .ok preds ∧
        ∀ p ∈ preds, p.metadata = "" := by
  have hres : resolveClassInfo class_names (some info) =
      List.replicate class_names.length "" := by
    simp [resolveClassInfo, hmis]
  refine ⟨hres, ?_⟩
  rw [hres]
  unfold format_prediction
  exact format_list_replicate urlenc class_names (labels.zip probs)
    (fun p hp => hvalid p.1 (List.of_mem_zip hp).1)

/-- Witness for `class_info_mismatch_degrades`: two classes, a one-line
info file, one in-range prediction. -/
theorem class_info_mismatch_degrades_witness :
    resolveClassInfo ["cat", "dog"] (some ["only one line"]) = ["", ""] ∧
    ∃ preds,
      format_prediction (fun _ => "") ["cat", "dog"]
          (resolveClassInfo ["cat", "dog"] (some ["only one line"]))
          [1] [(7 : Nat)] = .ok preds ∧
        ∀ p ∈ preds, p.metadata = "" :=
  class_info_mismatch_degrades (fun _ => "") ["cat", "dog"] ["only one line"]
    [1] [(7 : Nat)] (by decide) (by decide)

/-- The message `str(e)` used when `catch_error` re-raises an exception as
`BadRequest` (api.py lines 128-134); re-wrapping a `BadRequest` keeps its
message. -/
def excMsg : PyExc → String
  | .badRequest m => m
  | .keyError k => k
  | .valueError m => m
  | .indexError => "list index out of range"
  | .attributeError => "AttributeError"

/-- The `catch_error` decorator (api.py lines 128-134): any exception
escaping the wrapped function is re-raised as `BadRequest`. -/
def catch_error {α : Type} (r : Except PyExc α) : Except PyExc α :=
  match r with
  | .ok a => .ok a
  | .error e => .error (.badRequest (excMsg e))

/-- The process-wide inference globals (api.py lines 51-53): `loaded` plus
`model, conf, class_names, class_info`, all `None` until the first load.
The network type `M` and the parsed configuration type `C` are abstract. -/
structure InferenceState (M C : Type) where
  loaded : Bool
  model : Option M
  conf : Option C
  class_names : Option (List String)
  class_info : Option (List String)
  deriving DecidableEq

/-- The filesystem contents and external loaders read by
`load_inference_model`: the timestamp directories under `./models`, the
per-timestamp checkpoint listing, the splits-directory listing, the class
name and class info files, `conf.json`, and the keras model loader. -/
structure Env (M C : Type) where
  timestamps : List String
  ckpts : String → List String
  splits_files : String → List String
  class_names_file : String → List String
  class_info_file : String → List String
  conf_json : String → C
  model_file : String → String → M

/-- Embeds `load_inference_model` (api.py lines 60-125): select the
snapshot, select the checkpoint, load class names, optionally class info
(`info.txt` present in the splits listing, with the length-mismatch
degradation), the configuration and the network, and set `loaded`. The
second component counts filesystem reads (walks, listings, file loads);
an error aborts before the remaining reads and leaves the globals as they
were. -/
def load_inference_model {M C : Type} (env : Env M C) :
    Except PyExc (InferenceState M C) × Nat :=
  match selectSnapshot env.timestamps with
  | .error e => (.error e, 1)
  | .ok ts =>
    match selectCheckpoint ts (env.ckpts ts) with
    | .error e => (.error e, 2)
    | .ok model_name =>
      let class_names := env.class_names_file ts
      let has_info := "info.txt" ∈ env.splits_files ts
      let class_info := resolveClassInfo class_names
        (if has_info then some (env.class_info_file ts) else none)
      (.ok { loaded := true
             model := some (env.model_file ts model_name)
             conf := some (env.conf_json ts)
             class_names := some class_names
             class_info := some class_info },
       6 + (if has_info then 1 else 0))

/-- The load-if-absent guard of both prediction entry points (api.py lines
181-182 and 210-211): `if not loaded: load_inference_model()`. -/
def ensureLoaded {M C : Type} (st : InferenceState M C) (env : Env M C) :
    Except PyExc (InferenceState M C) × Nat :=
  if st.loaded then (.ok st, 0) else load_inference_model env

/-- Outcome of `requests.head(url)` plus reading the content-type header
(api.py line 147): the request may raise; on success the header value is
returned (a present `content-type` header is assumed here — with a missing
header the code would instead crash on `None`). -/
inductive FetchResult
  | err
  | ok (contentType : String)
  deriving DecidableEq, Repr

/-- `BadRequest` message for an empty query (api.py lines 141 and 163). -/
def emptyQueryMsg : String := "Empty query"

/-- `BadRequest` message for an unreachable url (api.py lines 149-150). -/
def failedUrlMsg : String :=
  "Failed url connection: Check you wrote the url address correctly."

/-- `BadRequest` message for a non-image url (api.py lines 154-156). -/
def urlFormatMsg : String :=
  "Url image format error: Some urls were not in image format. Check you did not uploaded a preview of the image rather than the image itself."

/-- `BadRequest` message for a non-image upload extension (api.py lines
170-171; the formatted allow-list is omitted from the text). -/
def localFormatMsg : String :=
  "Local image format error: At least one file is not in a standard image format."

/-- Python `url_type.split('/')[0]`: the prefix before the first slash. -/
def contentTypeMain (ct : String) : String :=
  String.mk (ct.data.takeWhile (fun c => c ≠ '/'))

/-- The per-URL loop of `catch_url_error` (api.py lines 143-156): URLs are
probed in order by `requests.head`; the first fetch error raises the
failed-connection `BadRequest`; the first successful fetch whose content
type is not `image/...` raises the format `BadRequest`. -/
def check_urls (head : String → FetchResult) : List String → Except PyExc Unit
  | [] => .ok ()
  | u :: rest =>
    match head u with
    | .err => .error (.badRequest failedUrlMsg)
    | .ok ct =>
      if contentTypeMain ct ≠ "image" then .error (.badRequest urlFormatMsg)
      else check_urls head rest

/-- `catch_url_error` (api.py lines 137-156): empty query check, then the
per-URL loop. -/
def catch_url_error (head : String → FetchResult) (url_list : List String) :
    Except PyExc Unit :=
  if url_list = [] then .error (.badRequest emptyQueryMsg)
  else check_urls head url_list

/-- The fixed allow-list of upload extensions (api.py line 56). -/
def allowed_extensions : List String := ["png", "jpg", "jpeg", "PNG", "JPG", "JPEG"]

/-- Helper for Python `s.split(sep)[-1]`: the segment after the last
occurrence of `sep` (the whole string when `sep` does not occur). -/
def segAfterLast (sep : Char) (s : String) : String :=
  String.mk (s.data.foldl (fun acc c => if c = sep then [] else acc ++ [c]) [])

/-- `os.path.basename(f.filename).split('.')[-1]` (api.py line 167). -/
def fileExtension (filename : String) : String :=
  segAfterLast '.' (segAfterLast '/' filename)

/-- An uploaded file as seen by `predict_data`: a werkzeug upload carrying
a client filename and raw byte content. -/
structure UploadFile where
  filename : String
  content : List Nat
  deriving DecidableEq, Repr

/-- The per-file loop of `catch_localfile_error` (api.py lines 165-171):
the first file whose extension is outside the allow-list raises the local
format `BadRequest`. -/
def check_files : List UploadFile → Except PyExc Unit
  | [] => .ok ()
  | f :: rest =>
    if fileExtension f.filename ∉ allowed_extensions then
      .error (.badRequest localFormatMsg)
    else check_files rest

/-- `catch_localfile_error` (api.py lines 159-171): empty query check, then
the per-file loop. -/
def catch_localfile_error (file_list : List UploadFile) : Except PyExc Unit :=
  if file_list = [] then .error (.badRequest emptyQueryMsg)
  else check_files file_list

/-- External collaborators of the prediction pipeline: the `requests.head`
probe, the forward pass `test_utils.predict` (external to api.py; includes
batching, crop merging and the squeeze), and `requests.compat.urlencode`. -/
structure PredictEnv (M C P : Type) where
  head : String → FetchResult
  infer : M → C → List String → Except PyExc (List Nat × List P)
  urlenc : List (String × String) → String

/-- The inference-and-format step shared by both prediction entry points
(api.py lines 183-195 and 221-239): read the cached globals — on a `None`
global the `with graph.as_default()` block raises `AttributeError` — call
the external forward pass over the input names, and format the result. The
second component counts invocations of the external forward pass. -/
def predict_body {M C P : Type} (pe : PredictEnv M C P) (st2 : InferenceState M C)
    (inputs : List String) : Except PyExc (List (Prediction P)) × Nat :=
  match st2.model, st2.conf, st2.class_names, st2.class_info with
  | some m, some c, some cns, some cinfo =>
    (match pe.infer m c inputs with
     | .error e => .error e
     | .ok (labels, probs) => format_prediction pe.urlenc cns cinfo labels probs, 1)
  | _, _, _, _ => (.error .attributeError, 0)

/-- Result of a `predict_url` call: the `catch_error`-wrapped response, the
final process-wide state, the filesystem reads performed, and the number of
forward-pass invocations. -/
structure UrlCallResult (M C P : Type) where
  result : Except PyExc (List (Prediction P))
  state : InferenceState M C
  fs_reads : Nat
  infer_calls : Nat

/-- Embeds `predict_url` (api.py lines 174-195): validate the URLs, load
the model if absent, run the forward pass, format; `catch_error` wraps any
raised exception into `BadRequest`. -/
def predict_url {M C P : Type} (pe : PredictEnv M C P) (env : Env M C)
    (st : InferenceState M C) (urls : List String) : UrlCallResult M C P :=
  match catch_url_error pe.head urls with
  | .error e =>
      { result := catch_error (.error e), state := st, fs_reads := 0, infer_calls := 0 }
  | .ok _ =>
    match ensureLoaded st env with
    | (.error e, n) =>
        { result := catch_error (.error e), state := st, fs_reads := n, infer_calls := 0 }
    | (.ok st2, n) =>
        { result := catch_error (predict_body pe st2 urls).1
          state := st2
          fs_reads := n
          infer_calls := (predict_body pe st2 urls).2 }

/-- `os.remove` for each name in turn, on a disk modelled as its list of
paths (api.py lines 232-234). -/
def removeAll (disk : List String) (names : List String) : List String :=
  names.foldl (fun d nm => d.erase nm) disk

/-- Result of a `predict_data` call: the wrapped response, the final state,
the final disk contents, the filesystem reads of model loading, and the
number of forward-pass invocations. -/
structure DataCallResult (M C P : Type) where
  result : Except PyExc (List (Prediction P))
  state : InferenceState M C
  disk : List String
  fs_reads : Nat
  infer_calls : Nat

/-- Embeds `predict_data` (api.py lines 198-239): validate the uploads,
load the model if absent, write each upload into a fresh temporary file
(`tempfile.NamedTemporaryFile(delete=False)`; the fresh names are supplied
by `temp_names`, one per upload), run the forward pass over the temporary
paths inside `try`, and in `finally` remove every temporary file whatever
the outcome; the FIXME coercion of a non-list `args` value into a list is
the identity here. -/
def predict_data {M C P : Type} (pe : PredictEnv M C P) (env : Env M C)
    (st : InferenceState M C) (files : List UploadFile)
    (disk temp_names : List String) : DataCallResult M C P :=
  match catch_localfile_error files with
  | .error e =>
      { result := catch_error (.error e), state := st, disk := disk,
        fs_reads := 0, infer_calls := 0 }
  | .ok _ =>
    match ensureLoaded st env with
    | (.error e, n) =>
        { result := catch_error (.error e), state := st, disk := disk,
          fs_reads := n, infer_calls := 0 }
    | (.ok st2, n) =>
        let filenames := temp_names.take files.length
        { result := catch_error (predict_body pe st2 filenames).1
          state := st2
          disk := removeAll (disk ++ filenames) filenames
          fs_reads := n
          infer_calls := (predict_body pe st2 filenames).2 }

/-- Removing a block of fresh names appended to a disk restores the disk. -/
theorem removeAll_restores :
    ∀ (names disk : List String), names.Nodup → (∀ t ∈ names, t ∉ disk) →
      removeAll (disk ++ names) names = disk
  | [], disk, _, _ => by simp [removeAll]
  | n :: rest, disk, hnd, hdj => by
    have hn : n ∉ disk := hdj n (List.mem_cons_self n rest)
    have hstep : removeAll (disk ++ n :: rest) (n :: rest)
        = removeAll (disk ++ rest) rest := by
      show removeAll ((disk ++ n :: rest).erase n) rest = _
      rw [List.erase_append_right _ hn, List.erase_cons_head]
    rw [hstep]
    exact removeAll_restores rest disk (List.Nodup.of_cons hnd)
      (fun t ht => hdj t (List.mem_cons_of_mem n ht))

/-- **C5**: every temporary file created by `predict_data` is gone from the
disk when the call returns — the final disk is exactly the initial one —
whatever the outcome of the inference step (success or any exception),
provided the temporary names are fresh and pairwise distinct. -/
theorem predict_data_cleans_temp_files {M C P : Type} (pe : PredictEnv M C P)
    (env : Env M C) (st : InferenceState M C) (files : List UploadFile)
    (disk temp_names : List String)
    (hnd : temp_names.Nodup) (hdj : ∀ t ∈ temp_names, t ∉ disk) :
    (predict_data pe env st files disk temp_names).disk = disk ∧
    ∀ t ∈ temp_names.take files.length,
      t ∉ (predict_data pe env st files disk temp_names).disk := by
  have hkey : removeAll (disk ++ temp_names.take files.length)
      (temp_names.take files.length) = disk :=
    removeAll_restores _ disk
      ((List.take_sublist files.length temp_names).nodup hnd)
      (fun t ht => hdj t ((List.take_sublist files.length temp_names).subset ht))
  have hdisk : (predict_data pe env st files disk temp_names).disk = disk := by
    cases hval : catch_localfile_error files with
    | error e => simp [predict_data, hval]
    | ok u =>
      cases hload : ensureLoaded st env with
      | mk r n =>
        cases r with
        | error e => simp [predict_data, hval, hload]
        | ok st2 => simp [predict_data, hval, hload, hkey]
  refine ⟨hdisk, ?_⟩
  intro t ht
  rw [hdisk]
  exact hdj t ((List.take_sublist files.length temp_names).subset ht)

/-- Witness for `predict_data_cleans_temp_files` at a concrete call. -/
theorem predict_data_cleans_temp_files_witness :
    (predict_data
        (P := Nat)
        { head := fun _ => .ok "image/png"
          infer := fun _ _ _ => .error (.valueError "boom")
          urlenc := fun _ => "" }
        { timestamps := ["api"], ckpts := fun _ => ["final_model.h5"]
          splits_files := fun _ => [], class_names_file := fun _ => ["cat"]
          class_info_file := fun _ => [], conf_json := fun _ => (0 : Nat)
          model_file := fun _ _ => (0 : Nat) }
        { loaded := true, model := some 0, conf := some 0
          class_names := some ["cat"], class_info := some [""] }
        [{ filename := "a.png", content := [1] }]
        ["data.txt"] ["tmp1", "tmp2"]).disk = ["data.txt"] ∧
    ("tmp1" : String) ∉ (predict_data
        (P := Nat)
        { head := fun _ => .ok "image/png"
          infer := fun _ _ _ => .error (.valueError "boom")
          urlenc := fun _ => "" }
        { timestamps := ["api"], ckpts := fun _ => ["final_model.h5"]
          splits_files := fun _ => [], class_names_file := fun _ => ["cat"]
          class_info_file := fun _ => [], conf_json := fun _ => (0 : Nat)
          model_file := fun _ _ => (0 : Nat) }
        { loaded := true, model := some 0, conf := some 0
          class_names := some ["cat"], class_info := some [""] }
        [{ filename := "a.png", content := [1] }]
        ["data.txt"] ["tmp1", "tmp2"]).disk := by
  have h := predict_data_cleans_temp_files
      (P := Nat)
      { head := fun _ => .ok "image/png"
        infer := fun _ _ _ => .error (.valueError "boom")
        urlenc := fun _ => "" }
      { timestamps := ["api"], ckpts := fun _ => ["final_model.h5"]
        splits_files := fun _ => [], class_names_file := fun _ => ["cat"]
        class_info_file := fun _ => [], conf_json := fun _ => (0 : Nat)
        model_file := fun _ _ => (0 : Nat) }
      { loaded := true, model := some 0, conf := some 0
        class_names := some ["cat"], class_info := some [""] }
      [{ filename := "a.png", content := [1] }]
      ["data.txt"] ["tmp1", "tmp2"] (by decide) (by decide)
  exact ⟨h.1, h.2 "tmp1" (by decide)⟩

/-- **C6**: with the loaded flag set, `ensureLoaded` returns the state
unchanged with zero filesystem reads, and both prediction entry points
leave the cached globals (network, configuration, class names, metadata)
untouched and read nothing from the filesystem. -/
theorem ensureLoaded_noop {M C P : Type} (pe : PredictEnv M C P) (env : Env M C)
    (st : InferenceState M C) (h : st.loaded = true) :
    ensureLoaded st env = (.ok st, 0) ∧
    (∀ urls, (predict_url pe env st urls).state = st ∧
             (predict_url pe env st urls).fs_reads = 0) ∧
    (∀ files disk temp_names,
        (predict_data pe env st files disk temp_names).state = st ∧
        (predict_data pe env st files disk temp_names).fs_reads = 0) := by
  have he : ensureLoaded st env = (.ok st, 0) := by
    simp [ensureLoaded, h]
  refine ⟨he, ?_, ?_⟩
  · intro urls
    cases hval : catch_url_error pe.head urls with
    | error e => simp [predict_url, hval]
    | ok u => simp [predict_url, hval, he]
  · intro files disk temp_names
    cases hval : catch_localfile_error files with
    | error e => simp [predict_data, hval]
    | ok u => simp [predict_data, hval, he]

/-- Witness for `ensureLoaded_noop` at a concrete loaded state. -/
theorem ensureLoaded_noop_witness :
    ensureLoaded
        { loaded := true, model := some (0 : Nat), conf := some (0 : Nat)
          class_names := some ["cat"], class_info := some [""] }
        { timestamps := ["api"], ckpts := fun _ => ["final_model.h5"]
          splits_files := fun _ => [], class_names_file := fun _ => ["cat"]
          class_info_file := fun _ => [], conf_json := fun _ => (0 : Nat)
          model_file := fun _ _ => (0 : Nat) } =
      (.ok { loaded := true, model := some (0 : Nat), conf := some (0 : Nat)
             class_names := some ["cat"], class_info := some [""] }, 0) ∧
    (predict_url (P := Nat)
        { head := fun _ => .ok "image/png"
          infer := fun _ _ _ => .ok ([0], [1])
          urlenc := fun _ => "" }
        { timestamps := ["api"], ckpts := fun _ => ["final_model.h5"]
          splits_files := fun _ => [], class_names_file := fun _ => ["cat"]
          class_info_file := fun _ => [], conf_json := fun _ => (0 : Nat)
          model_file := fun _ _ => (0 : Nat) }
        { loaded := true, model := some (0 : Nat), conf := some (0 : Nat)
          class_names := some ["cat"], class_info := some [""] }
        ["http://img"]).fs_reads = 0 :=
  ⟨(ensureLoaded_noop (P := Nat)
      { head := fun _ => .ok "image/png"
        infer := fun _ _ _ => .ok ([0], [1])
        urlenc := fun _ => "" }
      { timestamps := ["api"], ckpts := fun _ => ["final_model.h5"]
        splits_files := fun _ => [], class_names_file := fun _ => ["cat"]
        class_info_file := fun _ => [], conf_json := fun _ => (0 : Nat)
        model_file := fun _ _ => (0 : Nat) }
      { loaded := true, model := some (0 : Nat), conf := some (0 : Nat)
        class_names := some ["cat"], class_info := some [""] } rfl).1,
   ((ensureLoaded_noop
      { head := fun _ => .ok "image/png"
        infer := fun _ _ _ => .ok ([0], [1])
        urlenc := fun _ => "" }
      { timestamps := ["api"], ckpts := fun _ => ["final_model.h5"]
        splits_files := fun _ => [], class_names_file := fun _ => ["cat"]
        class_info_file := fun _ => [], conf_json := fun _ => (0 : Nat)
        model_file := fun _ _ => (0 : Nat) }
      { loaded := true, model := some (0 : Nat), conf := some (0 : Nat)
        class_names := some ["cat"], class_info := some [""] } rfl).2.1
      ["http://img"]).2⟩

/-- **C8**: the empty URL list and the empty upload list both fail with the
`Empty query` `BadRequest`, with the cached state untouched, zero
filesystem reads and zero forward passes: the emptiness check precedes
model loading and any model computation. -/
theorem empty_query_fails_first {M C P : Type} (pe : PredictEnv M C P)
    (env : Env M C) (st : InferenceState M C) (disk temp_names : List String) :
    predict_url pe env st [] =
      { result := .error (.badRequest emptyQueryMsg), state := st
        fs_reads := 0, infer_calls := 0 } ∧
    predict_data pe env st [] disk temp_names =
      { result := .error (.badRequest emptyQueryMsg), state := st
        disk := disk, fs_reads := 0, infer_calls := 0 } := by
  constructor
  · rfl
  · rfl

/-- A URL whose metadata fetch succeeds with an `image/...` content type. -/
def goodImage (head : String → FetchResult) (u : String) : Prop :=
  ∃ ct, head u = .ok ct ∧ contentTypeMain ct = "image"

/-- `u` is the first URL of `urls` not preceded only by good image URLs:
every URL before it fetched fine with an image content type. -/
def firstOffender (head : String → FetchResult) (urls : List String)
    (u : String) : Prop :=
  ∃ pre post, urls = pre ++ u :: post ∧ ∀ v ∈ pre, goodImage head v

/-- The URL loop succeeds exactly when every URL is a good image URL. -/
theorem check_urls_ok_iff (head : String → FetchResult) :
    ∀ urls, check_urls head urls = .ok () ↔ ∀ u ∈ urls, goodImage head u
  | [] => by simp [check_urls]
  | u :: rest => by
    cases hh : head u with
    | err =>
      simp only [check_urls, hh]
      constructor
      · intro hcon
        cases hcon
      · intro hall
        obtain ⟨ct, hct, -⟩ := hall u (List.mem_cons_self u rest)
        rw [hh] at hct
        cases hct
    | ok ct =>
      simp only [check_urls, hh]
      by_cases hct : contentTypeMain ct = "image"
      · rw [if_neg (by simp [hct])]
        have hrec := check_urls_ok_iff head rest
        constructor
        · intro hr v hv
          rcases List.mem_cons.mp hv with rfl | hvr
          · exact ⟨ct, hh, hct⟩
          · exact hrec.mp hr v hvr
        · intro hall
          exact hrec.mpr (fun v hv => hall v (List.mem_cons_of_mem u hv))
      · rw [if_pos hct]
        constructor
        · intro hcon
          cases hcon
        · intro hall
          obtain ⟨ct2, hct2, hmain⟩ := hall u (List.mem_cons_self u rest)
          rw [hh] at hct2
          cases hct2
          exact absurd hmain hct

/-- The URL loop raises the failed-connection error exactly when the first
offending URL has an erroring fetch. -/
theorem check_urls_err_iff (head : String → FetchResult) :
    ∀ urls, check_urls head urls = .error (.badRequest failedUrlMsg) ↔
      ∃ u, firstOffender head urls u ∧ head u = .err
  | [] => by
    simp only [check_urls]
    constructor
    · intro hcon
      cases hcon
    · rintro ⟨u, ⟨pre, post, heq, -⟩, -⟩
      cases pre <;> simp at heq
  | u :: rest => by
    cases hh : head u with
    | err =>
      simp only [check_urls, hh]
      constructor
      · intro _
        exact ⟨u, ⟨[], rest, rfl, by simp⟩, hh⟩
      · intro _
        trivial
    | ok ct =>
      simp only [check_urls, hh]
      by_cases hct : contentTypeMain ct = "image"
      · rw [if_neg (by simp [hct])]
        have hrec := check_urls_err_iff head rest
        constructor
        · intro hr
          obtain ⟨w, ⟨pre, post, heq, hpre⟩, hw⟩ := hrec.mp hr
          exact ⟨w, ⟨u :: pre, post, by rw [heq]; rfl,
            fun v hv => by
              rcases List.mem_cons.mp hv with rfl | hvp
              · exact ⟨ct, hh, hct⟩
              · exact hpre v hvp⟩, hw⟩
        · rintro ⟨w, ⟨pre, post, heq, hpre⟩, hw⟩
          cases pre with
          | nil =>
            simp only [List.nil_append, List.cons.injEq] at heq
            rw [← heq.1] at hw
            rw [hh] at hw
            cases hw
          | cons p pre2 =>
            simp only [List.cons_append, List.cons.injEq] at heq
            exact hrec.mpr ⟨w, ⟨pre2, post, heq.2,
              fun v hv => hpre v (List.mem_cons_of_mem p hv)⟩, hw⟩
      · rw [if_pos hct]
        constructor
        · intro hcon
          exact absurd hcon (by decide)
        · rintro ⟨w, ⟨pre, post, heq, hpre⟩, hw⟩
          cases pre with
          | nil =>
            simp only [List.nil_append, List.cons.injEq] at heq
            rw [← heq.1] at hw
            rw [hh] at hw
            cases hw
          | cons p pre2 =>
            simp only [List.cons_append, List.cons.injEq] at heq
            obtain ⟨ct2, hct2, hmain⟩ := hpre p (List.mem_cons_self p pre2)
            rw [← heq.1] at hct2
            rw [hh] at hct2
            cases hct2
            exact absurd hmain hct

/-- The URL loop raises the format error exactly when the first offending
URL fetches fine with a non-image content type. -/
theorem check_urls_fmt_iff (head : String → FetchResult) :
    ∀ urls, check_urls head urls = .error (.badRequest urlFormatMsg) ↔
      ∃ u ctbad, firstOffender head urls u ∧ head u = .ok ctbad ∧
        contentTypeMain ctbad ≠ "image"
  | [] => by
    simp only [check_urls]
    constructor
    · intro hcon
      cases hcon
    · rintro ⟨u, ctbad, ⟨pre, post, heq, -⟩, -, -⟩
      cases pre <;> simp at heq
  | u :: rest => by
    cases hh : head u with
    | err =>
      simp only [check_urls, hh]
      constructor
      · intro hcon
        exact absurd hcon (by decide)
      · rintro ⟨w, ctbad, ⟨pre, post, heq, hpre⟩, hw, -⟩
        cases pre with
        | nil =>
          simp only [List.nil_append, List.cons.injEq] at heq
          rw [← heq.1] at hw
          rw [hh] at hw
          cases hw
        | cons p pre2 =>
          simp only [List.cons_append, List.cons.injEq] at heq
          obtain ⟨ct2, hct2, -⟩ := hpre p (List.mem_cons_self p pre2)
          rw [← heq.1] at hct2
          rw [hh] at hct2
          cases hct2
    | ok ct =>
      simp only [check_urls, hh]
      by_cases hct : contentTypeMain ct = "image"
      · rw [if_neg (by simp [hct])]
        have hrec := check_urls_fmt_iff head rest
        constructor
        · intro hr
          obtain ⟨w, ctbad, ⟨pre, post, heq, hpre⟩, hw, hbad⟩ := hrec.mp hr
          exact ⟨w, ctbad, ⟨u :: pre, post, by rw [heq]; rfl,
            fun v hv => by
              rcases List.mem_cons.mp hv with rfl | hvp
              · exact ⟨ct, hh, hct⟩
              · exact hpre v hvp⟩, hw, hbad⟩
        · rintro ⟨w, ctbad, ⟨pre, post, heq, hpre⟩, hw, hbad⟩
          cases pre with
          | nil =>
            simp only [List.nil_append, List.cons.injEq] at heq
            rw [← heq.1] at hw
            rw [hh] at hw
            cases hw
            exact absurd hct hbad
          | cons p pre2 =>
            simp only [List.cons_append, List.cons.injEq] at heq
            exact hrec.mpr ⟨w, ctbad, ⟨pre2, post, heq.2,
              fun v hv => hpre v (List.mem_cons_of_mem p hv)⟩, hw, hbad⟩
      · rw [if_pos hct]
        constructor
        · intro _
          exact ⟨u, ct, ⟨[], rest, rfl, by simp⟩, hh, hct⟩
        · intro _
          trivial

/-- The URL loop has exactly three outcomes. -/
theorem check_urls_outcomes (head : String → FetchResult) :
    ∀ urls, check_urls head urls = .ok () ∨
      check_urls head urls = .error (.badRequest failedUrlMsg) ∨
      check_urls head urls = .error (.badRequest urlFormatMsg)
  | [] => Or.inl rfl
  | u :: rest => by
    cases hh : head u with
    | err => simp [check_urls, hh]
    | ok ct =>
      by_cases hct : contentTypeMain ct = "image"
      · simpa [check_urls, hh, hct] using check_urls_outcomes head rest
      · simp [check_urls, hh, hct]

/-- A concrete probe: `u1` is reachable with a `text/html` content type,
every other URL is unreachable. -/
def headCex : String → FetchResult := fun u =>
  if u = "u1" then .ok "text/html" else .err

/-- **C7 counterexample**: with `u1` fetching as `text/html` and the fetch
of `u2` erroring, some fetch of the list errors, yet validation raises the
format error and not the failed-connection error: the loop stops at the
first offending URL, so the exactly-when correspondence stated by the
claim fails, and `u2` is never probed. -/
theorem catch_url_error_not_iff :
    headCex "u2" = .err ∧
    catch_url_error headCex ["u1", "u2"] = .error (.badRequest urlFormatMsg) ∧
    catch_url_error headCex ["u1", "u2"] ≠ .error (.badRequest failedUrlMsg) := by
  refine ⟨rfl, rfl, ?_⟩
  decide

/-- **C7 (amended)**: for a non-empty URL list the validator probes URLs in
order and stops at the first offender: it raises the failed-connection
error exactly when the first offending URL (one preceded only by good
image URLs) has an erroring fetch; it raises the format error exactly when
the first offending URL fetched fine with a primary content type other
than `image`; it succeeds exactly when every URL fetches fine as an image;
and no other outcome occurs. -/
theorem catch_url_error_first_failure (head : String → FetchResult)
    (urls : List String) (hne : urls ≠ []) :
    (catch_url_error head urls = .ok () ↔ ∀ u ∈ urls, goodImage head u) ∧
    (catch_url_error head urls = .error (.badRequest failedUrlMsg) ↔
      ∃ u, firstOffender head urls u ∧ head u = .err) ∧
    (catch_url_error head urls = .error (.badRequest urlFormatMsg) ↔
      ∃ u ctbad, firstOffender head urls u ∧ head u = .ok ctbad ∧
        contentTypeMain ctbad ≠ "image") ∧
    (catch_url_error head urls = .ok () ∨
     catch_url_error head urls = .error (.badRequest failedUrlMsg) ∨
     catch_url_error head urls = .error (.badRequest urlFormatMsg)) := by
  have hunfold : catch_url_error head urls = check_urls head urls := by
    unfold catch_url_error
    rw [if_neg hne]
  rw [hunfold]
  exact ⟨check_urls_ok_iff head urls, check_urls_err_iff head urls,
    check_urls_fmt_iff head urls, check_urls_outcomes head urls⟩

/-- Witness for `catch_url_error_first_failure` at a concrete list. -/
theorem catch_url_error_first_failure_witness :
    (catch_url_error headCex ["u1", "u2"] = .ok () ↔
      ∀ u ∈ ["u1", "u2"], goodImage headCex u) ∧
    (catch_url_error headCex ["u1", "u2"] = .error (.badRequest failedUrlMsg) ↔
      ∃ u, firstOffender headCex ["u1", "u2"] u ∧ headCex u = .err) ∧
    (catch_url_error headCex ["u1", "u2"] = .error (.badRequest urlFormatMsg) ↔
      ∃ u ctbad, firstOffender headCex ["u1", "u2"] u ∧ headCex u = .ok ctbad ∧
        contentTypeMain ctbad ≠ "image") ∧
    (catch_url_error headCex ["u1", "u2"] = .ok () ∨
     catch_url_error headCex ["u1", "u2"] = .error (.badRequest failedUrlMsg) ∨
     catch_url_error headCex ["u1", "u2"] = .error (.badRequest urlFormatMsg)) :=
  catch_url_error_first_failure headCex ["u1", "u2"] (by decide)

/-- A JSON-shaped configuration value, the result of `json.loads` on an
override string. Numbers are embedded as integers and arrays as integer
arrays (no claim involves fractional values; the only array-valued
configuration entries are numeric lists). -/
inductive JVal
  | null
  | bool (b : Bool)
  | num (n : Int)
  | str (s : String)
  | numArr (elems : List Int)
  deriving DecidableEq, Repr

/-- One descriptor of the two-level configuration schema `config.CONF`
(group → key → descriptor; its `value` slot is written by the merge loop of
`train`, api.py lines 309-311, and its optional `type`/`choices` slots are
read by `get_train_args`, api.py lines 350-355). Modelled from the spec:
`config.py`, which defines `CONF` and its constraint fields, is not among
the shipped sources; spec §4.5 names the constraint kinds (type, allowed
choices, range). -/
structure ParamDesc where
  value : JVal
  vtype : Option String := none
  choices : Option (List JVal) := none
  vrange : Option (Int × Int) := none
  deriving DecidableEq, Repr

/-- The two-level group → key → descriptor schema. -/
abbrev Schema := List (String × List (String × ParamDesc))

/-- Python dict lookup `d[k]` over an association list with unique keys:
`KeyError` when absent. -/
def pyDictGet {α : Type} (d : List (String × α)) (k : String) : Except PyExc α :=
  match d.find? (fun kv => decide (kv.1 = k)) with
  | some kv => .ok kv.2
  | none => .error (.keyError k)

/-- Python `sorted(d.items())` for a dict `d`: items sorted by key (keys
are unique, so the comparison never reaches the values). -/
def pySortPairs {α : Type} (l : List (String × α)) : List (String × α) :=
  @List.insertionSort (String × α) (fun a b => a.1 ≤ b.1)
    (fun a b => strLeDec a.1 b.1) l

/-- `pySortPairs` permutes its input. -/
theorem pySortPairs_perm {α : Type} (l : List (String × α)) :
    List.Perm (pySortPairs l) l :=
  @List.perm_insertionSort (String × α) (fun a b => a.1 ≤ b.1)
    (fun a b => strLeDec a.1 b.1) l

/-- The inner loop of the override merge in `train` (api.py lines 310-311):
for each key of the group in sorted order, the raw override
`user_conf[g_key]` is fetched (`KeyError` when absent), decoded by
`json.loads`, and written into the value slot of the descriptor. -/
def merge_group (user_conf : List (String × String))
    (decode : String → Except PyExc JVal) :
    List (String × ParamDesc) → Except PyExc (List (String × ParamDesc))
  | [] => .ok []
  | (k, d) :: rest =>
    match pyDictGet user_conf k with
    | .error e => .error e
    | .ok raw =>
      match decode raw with
      | .error e => .error e
      | .ok v =>
        match merge_group user_conf decode rest with
        | .error e => .error e
        | .ok rest2 => .ok ((k, { d with value := v }) :: rest2)

/-- The outer loop of the override merge in `train` (api.py lines 309-311):
groups in sorted order, keys in sorted order within each group. -/
def merge_groups (user_conf : List (String × String))
    (decode : String → Except PyExc JVal) :
    List (String × List (String × ParamDesc)) →
      Except PyExc (List (String × List (String × ParamDesc)))
  | [] => .ok []
  | (g, kvs) :: rest =>
    match merge_group user_conf decode (pySortPairs kvs) with
    | .error e => .error e
    | .ok kvs2 =>
      match merge_groups user_conf decode rest with
      | .error e => .error e
      | .ok rest2 => .ok ((g, kvs2) :: rest2)

/-- The override merge of `train` (api.py lines 306-311). -/
def merge_overrides (schema : Schema) (user_conf : List (String × String))
    (decode : String → Except PyExc JVal) : Except PyExc Schema :=
  merge_groups user_conf decode (pySortPairs schema)

/-- The Python type name of a decoded value. -/
def jvalTypeName : JVal → String
  | .null => "NoneType"
  | .bool _ => "bool"
  | .num _ => "int"
  | .str _ => "str"
  | .numArr _ => "list"

/-- Modelled from the spec: the per-descriptor constraint check used by
`config.check_conf` (spec §4.5: type, allowed choices, range; `config.py`
is not among the shipped sources). -/
def descOk (d : ParamDesc) : Bool :=
  (match d.vtype with
   | none => true
   | some t => decide (jvalTypeName d.value = t)) &&
  (match d.choices with
   | none => true
   | some cs => decide (d.value ∈ cs)) &&
  (match d.vrange with
   | none => true
   | some lohi =>
     match d.value with
     | .num n => decide (lohi.1 ≤ n) && decide (n ≤ lohi.2)
     | _ => false)

/-- The first constraint-violating key of one group, in key order. -/
def firstViolationGroup : List (String × ParamDesc) → Option String
  | [] => none
  | (k, d) :: rest => if descOk d then firstViolationGroup rest else some k

/-- The first constraint-violating key of the merged configuration, in
group and key order. -/
def firstViolation : List (String × List (String × ParamDesc)) → Option String
  | [] => none
  | (_, kvs) :: rest =>
    match firstViolationGroup kvs with
    | some k => some k
    | none => firstViolation rest

/-- The `InvalidConfig` message naming the offending key. -/
def invalidKeyMsg (k : String) : String :=
  "InvalidConfig: the given value for the key " ++ k ++ " is not valid"

/-- Modelled from the spec: `config.check_conf` (spec §4.5) validates every
descriptor of the merged configuration against its declared constraints and
fails naming the first offending key (`config.py` is not among the shipped
sources). -/
def check_conf (conf : Schema) : Except PyExc Unit :=
  match firstViolation conf with
  | some k => .error (.valueError (invalidKeyMsg k))
  | none => .ok ()

/-- Result of a `train` call: the `catch_error`-wrapped outcome, how many
times the configuration validation ran, and whether the external trainer
`train_fn` was invoked. -/
structure TrainResult where
  result : Except PyExc Unit
  checks : Nat
  trainer_invoked : Bool
  deriving DecidableEq, Repr

/-- Embeds `train` (api.py lines 295-330): merge the user overrides into
the default schema (sorted iteration over schema groups and keys, reading
`user_conf[g_key]`), run `check_conf` with its exception wrapped in
`BadRequest`, then hand over to the external `train_fn`; the `catch_error`
decorator wraps any earlier exception as well. The timestamp generation,
table printing, session clearing and best-effort NextCloud sync do not
affect the modelled observables. -/
def train (schema : Schema) (user_conf : List (String × String))
    (decode : String → Except PyExc JVal) : TrainResult :=
  match merge_overrides schema user_conf decode with
  | .error e =>
      { result := catch_error (.error e), checks := 0, trainer_invoked := false }
  | .ok merged =>
    match check_conf merged with
    | .error e =>
        { result := catch_error (.error (.badRequest (excMsg e)))
          checks := 1, trainer_invoked := false }
    | .ok _ => { result := .ok (), checks := 1, trainer_invoked := true }

/-- All keys of the two-level schema. -/
def schemaKeys (schema : Schema) : List String :=
  (schema.map (fun g => g.2.map Prod.fst)).flatten

/-- A failing dict lookup names the key and certifies its absence. -/
theorem pyDictGet_err_elim {α : Type} (d : List (String × α)) (k : String)
    (e : PyExc) (h : pyDictGet d k = .error e) :
    e = .keyError k ∧ ∀ p ∈ d, p.1 ≠ k := by
  unfold pyDictGet at h
  cases hf : d.find? (fun kv => decide (kv.1 = k)) with
  | none =>
    rw [hf] at h
    cases h
    refine ⟨rfl, ?_⟩
    intro p hp
    have := List.find?_eq_none.mp hf p hp
    simpa using this
  | some kv =>
    rw [hf] at h
    cases h

/-- A successful dict lookup returns a stored binding. -/
theorem pyDictGet_ok_mem {α : Type} (d : List (String × α)) (k : String) (v : α)
    (h : pyDictGet d k = .ok v) : (k, v) ∈ d := by
  unfold pyDictGet at h
  cases hf : d.find? (fun kv => decide (kv.1 = k)) with
  | none =>
    rw [hf] at h
    cases h
  | some kv =>
    rw [hf] at h
    obtain ⟨k1, v1⟩ := kv
    cases h
    have hmem := List.mem_of_find?_eq_some hf
    have hpk : k1 = k := by simpa using List.find?_some hf
    rw [hpk] at hmem
    exact hmem

/-- When every supplied override decodes, the group merge either succeeds
or raises `KeyError` for a schema key absent from the overrides. -/
theorem merge_group_cases (uc : List (String × String))
    (decode : String → Except PyExc JVal)
    (hdec : ∀ p ∈ uc, ∃ j, decode p.2 = .ok j) :
    ∀ kvs : List (String × ParamDesc),
      (∃ kvs2, merge_group uc decode kvs = .ok kvs2) ∨
      (∃ k2, (∀ p ∈ uc, p.1 ≠ k2) ∧ k2 ∈ kvs.map Prod.fst ∧
        merge_group uc decode kvs = .error (.keyError k2))
  | [] => Or.inl ⟨[], rfl⟩
  | (k, d) :: rest => by
    cases hget : pyDictGet uc k with
    | error e =>
      obtain ⟨he, habs⟩ := pyDictGet_err_elim uc k e hget
      subst he
      exact Or.inr ⟨k, habs, by simp, by simp [merge_group, hget]⟩
    | ok raw =>
      obtain ⟨j, hj⟩ := hdec (k, raw) (pyDictGet_ok_mem uc k raw hget)
      rcases merge_group_cases uc decode hdec rest with
        ⟨kvs2, hok⟩ | ⟨k2, habs, hmem, herr⟩
      · exact Or.inl ⟨(k, { d with value := j }) :: kvs2,
          by simp [merge_group, hget, hj, hok]⟩
      · exact Or.inr ⟨k2, habs, by simp [hmem],
          by simp [merge_group, hget, hj, herr]⟩

/-- A successful group merge read every key of the group. -/
theorem merge_group_ok_present (uc : List (String × String))
    (decode : String → Except PyExc JVal) :
    ∀ kvs kvs2, merge_group uc decode kvs = .ok kvs2 →
      ∀ k ∈ kvs.map Prod.fst, ∃ raw, pyDictGet uc k = .ok raw
  | [], _, _ => by simp
  | (k0, d) :: rest, kvs2, h => by
    intro k hk
    cases hget : pyDictGet uc k0 with
    | error e =>
      simp only [merge_group, hget] at h
      cases h
    | ok raw =>
      cases hdec2 : decode raw with
      | error e =>
        simp only [merge_group, hget, hdec2] at h
        cases h
      | ok v =>
        cases hrec : merge_group uc decode rest with
        | error e =>
          simp only [merge_group, hget, hdec2, hrec] at h
          cases h
        | ok rest2 =>
          have hor : k = k0 ∨ k ∈ rest.map Prod.fst := by simpa using hk
          rcases hor with rfl | hkr
          · exact ⟨raw, hget⟩
          · exact merge_group_ok_present uc decode rest rest2 hrec k
              (by simpa using hkr)

/-- When every supplied override decodes, the full merge either succeeds or
raises `KeyError` for a schema key absent from the overrides. -/
theorem merge_groups_cases (uc : List (String × String))
    (decode : String → Except PyExc JVal)
    (hdec : ∀ p ∈ uc, ∃ j, decode p.2 = .ok j) :
    ∀ gs : List (String × List (String × ParamDesc)),
      (∃ gs2, merge_groups uc decode gs = .ok gs2) ∨
      (∃ k2, (∀ p ∈ uc, p.1 ≠ k2) ∧ (∃ g ∈ gs, k2 ∈ g.2.map Prod.fst) ∧
        merge_groups uc decode gs = .error (.keyError k2))
  | [] => Or.inl ⟨[], rfl⟩
  | (g, kvs) :: rest => by
    rcases merge_group_cases uc decode hdec (pySortPairs kvs) with
      ⟨kvs2, hok⟩ | ⟨k2, habs, hmem, herr⟩
    · rcases merge_groups_cases uc decode hdec rest with
        ⟨rest2, hok2⟩ | ⟨k2, habs, hmem, herr⟩
      · exact Or.inl ⟨(g, kvs2) :: rest2, by simp [merge_groups, hok, hok2]⟩
      · refine Or.inr ⟨k2, habs, ?_, by simp [merge_groups, hok, herr]⟩
        obtain ⟨g2, hg2, hk2⟩ := hmem
        exact ⟨g2, List.mem_cons_of_mem _ hg2, hk2⟩
    · refine Or.inr ⟨k2, habs, ?_, by simp [merge_groups, herr]⟩
      refine ⟨(g, kvs), List.mem_cons_self _ _, ?_⟩
      exact ((pySortPairs_perm kvs).map Prod.fst).mem_iff.mp hmem

/-- A successful full merge read every key of every group. -/
theorem merge_groups_ok_present (uc : List (String × String))
    (decode : String → Except PyExc JVal) :
    ∀ gs gs2, merge_groups uc decode gs = .ok gs2 →
      ∀ g ∈ gs, ∀ k ∈ g.2.map Prod.fst, ∃ raw, pyDictGet uc k = .ok raw
  | [], _, _ => by simp
  | (g0, kvs) :: rest, gs2, h => by
    intro g hg k hk
    cases hgrp : merge_group uc decode (pySortPairs kvs) with
    | error e =>
      simp only [merge_groups, hgrp] at h
      cases h
    | ok kvs2 =>
      cases hrec : merge_groups uc decode rest with
      | error e =>
        simp only [merge_groups, hgrp, hrec] at h
        cases h
      | ok rest2 =>
        rcases List.mem_cons.mp hg with rfl | hgr
        · exact merge_group_ok_present uc decode (pySortPairs kvs) kvs2 hgrp k
            (((pySortPairs_perm kvs).map Prod.fst).mem_iff.mpr hk)
        · exact merge_groups_ok_present uc decode rest rest2 hrec g hgr k hk

/-- The group merge reads the overrides only at the keys of the group. -/
theorem merge_group_congr (uc1 uc2 : List (String × String))
    (decode : String → Except PyExc JVal) :
    ∀ kvs : List (String × ParamDesc),
      (∀ k ∈ kvs.map Prod.fst, pyDictGet uc1 k = pyDictGet uc2 k) →
      merge_group uc1 decode kvs = merge_group uc2 decode kvs
  | [], _ => rfl
  | (k0, d) :: rest, h => by
    have hk := h k0 (by simp)
    have hrest := merge_group_congr uc1 uc2 decode rest
      (fun k2 hk2 => h k2 (by simp [hk2]))
    simp only [merge_group, hk, hrest]

/-- The full merge reads the overrides only at schema keys. -/
theorem merge_groups_congr (uc1 uc2 : List (String × String))
    (decode : String → Except PyExc JVal) :
    ∀ gs : List (String × List (String × ParamDesc)),
      (∀ g ∈ gs, ∀ k ∈ g.2.map Prod.fst, pyDictGet uc1 k = pyDictGet uc2 k) →
      merge_groups uc1 decode gs = merge_groups uc2 decode gs
  | [], _ => rfl
  | (g0, kvs) :: rest, h => by
    have hgrp : merge_group uc1 decode (pySortPairs kvs)
        = merge_group uc2 decode (pySortPairs kvs) := by
      apply merge_group_congr
      intro k hk
      apply h (g0, kvs) (List.mem_cons_self _ _)
      exact ((pySortPairs_perm kvs).map Prod.fst).mem_iff.mp hk
    have hrest := merge_groups_congr uc1 uc2 decode rest
      (fun g hg => h g (List.mem_cons_of_mem _ hg))
    simp only [merge_groups, hgrp, hrest]

/-- `train` depends on the overrides only through lookups at schema keys. -/
theorem train_reads_only_schema_keys (schema : Schema)
    (uc1 uc2 : List (String × String)) (decode : String → Except PyExc JVal)
    (h : ∀ k ∈ schemaKeys schema, pyDictGet uc1 k = pyDictGet uc2 k) :
    train schema uc1 decode = train schema uc2 decode := by
  have hm : merge_overrides schema uc1 decode = merge_overrides schema uc2 decode := by
    unfold merge_overrides
    apply merge_groups_congr
    intro g hg k hk
    apply h
    have hgs : g ∈ schema := (pySortPairs_perm schema).mem_iff.mp hg
    show k ∈ (schema.map (fun g => g.2.map Prod.fst)).flatten
    exact List.mem_flatten.mpr ⟨g.2.map Prod.fst, List.mem_map_of_mem _ hgs, hk⟩
  unfold train
  rw [hm]

/-- Every value of a successfully merged group is the decoded override. -/
theorem merge_group_value (uc : List (String × String))
    (decode : String → Except PyExc JVal) :
    ∀ kvs kvs2, merge_group uc decode kvs = .ok kvs2 →
      ∀ k d2, (k, d2) ∈ kvs2 →
        ∃ raw, pyDictGet uc k = .ok raw ∧ decode raw = .ok d2.value
  | [], kvs2, h => by
    cases h
    simp
  | (k0, d) :: rest, kvs2, h => by
    cases hget : pyDictGet uc k0 with
    | error e =>
      simp only [merge_group, hget] at h
      cases h
    | ok raw =>
      cases hdec2 : decode raw with
      | error e =>
        simp only [merge_group, hget, hdec2] at h
        cases h
      | ok v =>
        cases hrec : merge_group uc decode rest with
        | error e =>
          simp only [merge_group, hget, hdec2, hrec] at h
          cases h
        | ok rest2 =>
          simp only [merge_group, hget, hdec2, hrec, Except.ok.injEq] at h
          subst h
          intro k d2 hmem
          rcases List.mem_cons.mp hmem with heq | hmem2
          · injection heq with h1 h2
            subst h1
            subst h2
            exact ⟨raw, hget, hdec2⟩
          · exact merge_group_value uc decode rest rest2 hrec k d2 hmem2

/-- Every value of the successfully merged configuration is the decoded
override for its key. -/
theorem merge_groups_value (uc : List (String × String))
    (decode : String → Except PyExc JVal) :
    ∀ gs gs2, merge_groups uc decode gs = .ok gs2 →
      ∀ g2 ∈ gs2, ∀ k d2, (k, d2) ∈ g2.2 →
        ∃ raw, pyDictGet uc k = .ok raw ∧ decode raw = .ok d2.value
  | [], gs2, h => by
    cases h
    simp
  | (g0, kvs) :: rest, gs2, h => by
    cases hgrp : merge_group uc decode (pySortPairs kvs) with
    | error e =>
      simp only [merge_groups, hgrp] at h
      cases h
    | ok kvs2 =>
      cases hrec : merge_groups uc decode rest with
      | error e =>
        simp only [merge_groups, hgrp, hrec] at h
        cases h
      | ok rest2 =>
        simp only [merge_groups, hgrp, hrec, Except.ok.injEq] at h
        subst h
        intro g2 hg2 k d2 hmem
        rcases List.mem_cons.mp hg2 with rfl | hg2r
        · exact merge_group_value uc decode (pySortPairs kvs) kvs2 hgrp k d2 hmem
        · exact merge_groups_value uc decode rest rest2 hrec g2 hg2r k d2 hmem

/-- A reported first violation points at a stored violating descriptor. -/
theorem firstViolationGroup_mem :
    ∀ (kvs : List (String × ParamDesc)) (k : String),
      firstViolationGroup kvs = some k →
      ∃ d, (k, d) ∈ kvs ∧ descOk d = false
  | [], k, h => by cases h
  | (k0, d) :: rest, k, h => by
    by_cases hd : descOk d = true
    · simp only [firstViolationGroup, if_pos hd] at h
      obtain ⟨d2, hmem, hbad⟩ := firstViolationGroup_mem rest k h
      exact ⟨d2, List.mem_cons_of_mem _ hmem, hbad⟩
    · simp only [firstViolationGroup, if_neg hd] at h
      cases h
      exact ⟨d, List.mem_cons_self _ _, by simpa using hd⟩

/-- A reported first violation of the whole configuration points at a
stored violating descriptor in one of its groups. -/
theorem firstViolation_mem :
    ∀ (gs : List (String × List (String × ParamDesc))) (k : String),
      firstViolation gs = some k →
      ∃ g ∈ gs, ∃ d, (k, d) ∈ g.2 ∧ descOk d = false
  | [], k, h => by cases h
  | (g0, kvs) :: rest, k, h => by
    simp only [firstViolation] at h
    cases hg : firstViolationGroup kvs with
    | some k0 =>
      rw [hg] at h
      cases h
      obtain ⟨d, hmem, hbad⟩ := firstViolationGroup_mem kvs k hg
      exact ⟨(g0, kvs), List.mem_cons_self _ _, d, hmem, hbad⟩
    | none =>
      rw [hg] at h
      obtain ⟨g, hgmem, d, hmem, hbad⟩ := firstViolation_mem rest k h
      exact ⟨g, List.mem_cons_of_mem _ hgmem, d, hmem, hbad⟩

/-- **C10**: `train` reads the overrides only at schema keys — its outcome
is unchanged under any modification of the overrides outside the schema
keys, so unknown entries are never read — and when some schema key has no
override (and every supplied override decodes), the merge loop raises
`KeyError` for a missing schema key, surfaced by `catch_error` as a
`BadRequest`, with the configuration validation never run and the external
trainer never invoked. -/
theorem train_requires_every_schema_key (schema : Schema)
    (user_conf : List (String × String)) (decode : String → Except PyExc JVal) :
    ((∀ p ∈ user_conf, ∃ j, decode p.2 = .ok j) →
      (∃ k ∈ schemaKeys schema, ∀ p ∈ user_conf, p.1 ≠ k) →
      ∃ k2, k2 ∈ schemaKeys schema ∧ (∀ p ∈ user_conf, p.1 ≠ k2) ∧
        train schema user_conf decode =
          { result := .error (.badRequest k2), checks := 0,
            trainer_invoked := false }) ∧
    (∀ uc2 : List (String × String),
      (∀ k ∈ schemaKeys schema, pyDictGet user_conf k = pyDictGet uc2 k) →
      train schema user_conf decode = train schema uc2 decode) := by
  constructor
  · intro hdec hmiss
    obtain ⟨k, hkmem, hkabs⟩ := hmiss
    rcases merge_groups_cases user_conf decode hdec (pySortPairs schema) with
      ⟨gs2, hok⟩ | ⟨k2, habs, hmem, herr⟩
    · exfalso
      have hkmem2 : k ∈ (schema.map (fun g => g.2.map Prod.fst)).flatten := hkmem
      obtain ⟨s, hs, hks⟩ := List.mem_flatten.mp hkmem2
      obtain ⟨g, hg, rfl⟩ := List.mem_map.mp hs
      have hg2 : g ∈ pySortPairs schema := (pySortPairs_perm schema).mem_iff.mpr hg
      obtain ⟨raw, hraw⟩ := merge_groups_ok_present user_conf decode
        (pySortPairs schema) gs2 hok g hg2 k hks
      exact hkabs (k, raw) (pyDictGet_ok_mem _ _ _ hraw) rfl
    · refine ⟨k2, ?_, habs, ?_⟩
      · obtain ⟨g, hg, hk2⟩ := hmem
        have hgs : g ∈ schema := (pySortPairs_perm schema).mem_iff.mp hg
        show k2 ∈ (schema.map (fun g => g.2.map Prod.fst)).flatten
        exact List.mem_flatten.mpr ⟨g.2.map Prod.fst, List.mem_map_of_mem _ hgs, hk2⟩
      · unfold train
        unfold merge_overrides
        rw [herr]
        rfl
  · intro uc2 h
    exact train_reads_only_schema_keys schema user_conf uc2 decode h

/-- A one-group, one-key stand-in for the default schema: key `a` accepts
only the values `1` and `2`. Modelled from the spec: `config.CONF` lives in
`config.py`, which is not among the shipped sources; the claims quantify
over `train` calls and this schema realizes concrete ones. -/
def cexSchema : Schema :=
  [("general", [("a", { value := .num 1, choices := some [.num 1, .num 2] })])]

/-- A literal decoder standing in for the external `json.loads` on the raw
strings occurring in the concrete examples. -/
def cexDecode : String → Except PyExc JVal := fun s =>
  if s = "1" then .ok (.num 1)
  else if s = "2" then .ok (.num 2)
  else if s = "5" then .ok (.num 5)
  else .error (.valueError "Expecting value")

/-- Witness for `train_requires_every_schema_key`: the schema key `a` has
no override in the empty map, so `train` fails before validation and
training; and appending an unknown junk entry changes nothing. -/
theorem train_requires_every_schema_key_witness :
    (∃ k2, k2 ∈ schemaKeys cexSchema ∧
      (∀ p ∈ ([] : List (String × String)), p.1 ≠ k2) ∧
      train cexSchema [] cexDecode =
        { result := .error (.badRequest k2), checks := 0,
          trainer_invoked := false }) ∧
    train cexSchema [] cexDecode = train cexSchema [("junk", "5")] cexDecode :=
  ⟨(train_requires_every_schema_key cexSchema [] cexDecode).1
      (by simp) ⟨"a", by decide, by simp⟩,
   (train_requires_every_schema_key cexSchema [] cexDecode).2
      [("junk", "5")] (by decide)⟩

/-- **C2 counterexample**: the override map carries the unknown key
`zz_unknown` (besides a valid override for `a`), yet `train` raises no
input error at all: the unknown key is silently ignored, validation
passes, and the external trainer runs. -/
theorem train_unknown_key_no_error :
    ("zz_unknown" ∉ schemaKeys cexSchema) ∧
    train cexSchema [("a", "1"), ("zz_unknown", "5")] cexDecode =
      { result := .ok (), checks := 1, trainer_invoked := true } := by
  constructor
  · decide
  · rfl

/-- **C2 (amended)**: unknown override keys are silently ignored — `train`
reads the overrides only at schema keys — and when the merged configuration
has a first constraint-violating key `k`, whose merged value is exactly the
decoded override supplied for `k`, `train` fails with a `BadRequest` naming
`k` (the `InvalidConfig` failure), after exactly one validation pass and
without invoking the external trainer. -/
theorem train_invalid_value_names_key (schema : Schema)
    (user_conf : List (String × String)) (decode : String → Except PyExc JVal)
    (merged : Schema) (k : String)
    (hm : merge_overrides schema user_conf decode = .ok merged)
    (hv : firstViolation merged = some k) :
    (∃ d raw, (∃ g ∈ merged, (k, d) ∈ g.2) ∧ descOk d = false ∧
      pyDictGet user_conf k = .ok raw ∧ decode raw = .ok d.value) ∧
    train schema user_conf decode =
      { result := .error (.badRequest (invalidKeyMsg k))
        checks := 1, trainer_invoked := false } ∧
    (∀ uc2 : List (String × String),
      (∀ k2 ∈ schemaKeys schema, pyDictGet user_conf k2 = pyDictGet uc2 k2) →
      train schema user_conf decode = train schema uc2 decode) := by
  refine ⟨?_, ?_, ?_⟩
  · obtain ⟨g, hg, d, hmem, hbad⟩ := firstViolation_mem merged k hv
    obtain ⟨raw, hraw, hdec⟩ := merge_groups_value user_conf decode
      (pySortPairs schema) merged hm g hg k d hmem
    exact ⟨d, raw, ⟨g, hg, hmem⟩, hbad, hraw, hdec⟩
  · unfold train
    simp only [hm]
    unfold check_conf
    rw [hv]
    rfl
  · intro uc2 h
    exact train_reads_only_schema_keys schema user_conf uc2 decode h

/-- The merged configuration at the witness input of
`train_invalid_value_names_key`. -/
def mergedCex : Schema :=
  [("general", [("a", { value := .num 5, choices := some [.num 1, .num 2] })])]

/-- Witness for `train_invalid_value_names_key`: the override for `a`
decodes to `5`, violating the choices constraint. -/
theorem train_invalid_value_names_key_witness :
    (∃ d raw, (∃ g ∈ mergedCex, ("a", d) ∈ g.2) ∧ descOk d = false ∧
      pyDictGet [("a", "5")] "a" = .ok raw ∧ cexDecode raw = .ok d.value) ∧
    train cexSchema [("a", "5")] cexDecode =
      { result := .error (.badRequest (invalidKeyMsg "a"))
        checks := 1, trainer_invoked := false } ∧
    (∀ uc2 : List (String × String),
      (∀ k2 ∈ schemaKeys cexSchema, pyDictGet [("a", "5")] k2 = pyDictGet uc2 k2) →
      train cexSchema [("a", "5")] cexDecode = train cexSchema uc2 cexDecode) :=
  train_invalid_value_names_key cexSchema [("a", "5")] cexDecode mergedCex "a" rfl rfl

/-- Python `str.capitalize`: first character uppercased, the rest
lowercased. -/
def pyCapitalize (s : String) : String :=
  match s.data with
  | [] => ""
  | c :: cs => String.mk (c.toUpper :: cs.map Char.toLower)

/-- Python `s.startswith(t)`, which is also the effect of filtering
environment names through `re.match` with the pattern `^CONTAINER_(.*?)$`
(api.py lines 398-399): the name begins with the given literal. -/
def pyStartsWith (s t : String) : Bool :=
  List.isPrefixOf t.data s.data

/-- Python dict assignment `d[k] = v` on an insertion-ordered association
list: replace the binding in place when the key exists, else append. -/
def pyDictSet {α : Type} : List (String × α) → String → α → List (String × α)
  | [], k, v => [(k, v)]
  | kv :: rest, k, v =>
    if kv.1 = k then (k, v) :: rest else kv :: pyDictSet rest k v

/-- Dict lookup returning an `Option`. -/
def pyLookup {α : Type} (d : List (String × α)) (k : String) : Option α :=
  (d.find? (fun kv => decide (kv.1 = k))).map Prod.snd

/-- The metadata dictionary skeleton of `get_metadata` (api.py lines
381-389), every value `None` until filled from `PKG-INFO`. -/
def baseMeta : List (String × Option String) :=
  [("Name", none), ("Version", none), ("Summary", none), ("Home-page", none),
   ("Author", none), ("Author-email", none), ("License", none)]

/-- The container-variable merge of `get_metadata` (api.py lines 397-401):
for every environment variable whose name matches `^CONTAINER_(.*?)$`
(begins with `CONTAINER_`), in environment order,
`meta[var.capitalize()] = os.getenv(var)`. The `meta` argument is the
dictionary state after the `PKG-INFO` parsing loop, which reads the
external `pkg_resources` distribution. -/
def mergeContainerVars (meta : List (String × Option String))
    (environ : List (String × String)) : List (String × Option String) :=
  (environ.filter (fun kv => pyStartsWith kv.1 "CONTAINER_")).foldl
    (fun m kv => pyDictSet m (pyCapitalize kv.1) (some kv.2)) meta

/-- Looking up the key just written finds the written value. -/
theorem pyLookup_pyDictSet_self {α : Type} :
    ∀ (m : List (String × α)) (k : String) (v : α),
      pyLookup (pyDictSet m k v) k = some v
  | [], k, v => by
    unfold pyDictSet pyLookup
    rw [List.find?_cons_of_pos _ (by simp)]
    rfl
  | kv :: rest, k, v => by
    by_cases hk : kv.1 = k
    · simp only [pyDictSet, if_pos hk]
      unfold pyLookup
      rw [List.find?_cons_of_pos _ (by simp)]
      rfl
    · simp only [pyDictSet, if_neg hk]
      unfold pyLookup
      rw [List.find?_cons_of_neg _ (by simpa using hk)]
      exact pyLookup_pyDictSet_self rest k v

/-- Writing one key leaves the lookup of any other key unchanged. -/
theorem pyLookup_pyDictSet_other {α : Type} :
    ∀ (m : List (String × α)) (k k2 : String) (v : α), k ≠ k2 →
      pyLookup (pyDictSet m k v) k2 = pyLookup m k2
  | [], k, k2, v, hne => by
    unfold pyDictSet pyLookup
    rw [List.find?_cons_of_neg _ (by simpa using hne)]
  | kv :: rest, k, k2, v, hne => by
    by_cases hk : kv.1 = k
    · simp only [pyDictSet, if_pos hk]
      by_cases hk2 : kv.1 = k2
      · exact absurd (hk ▸ hk2) hne
      · unfold pyLookup
        rw [List.find?_cons_of_neg _ (by simpa using hne),
          List.find?_cons_of_neg _ (by simpa using hk2)]
    · simp only [pyDictSet, if_neg hk]
      by_cases hk2 : kv.1 = k2
      · unfold pyLookup
        rw [List.find?_cons_of_pos _ (by simpa using hk2),
          List.find?_cons_of_pos _ (by simpa using hk2)]
      · unfold pyLookup
        rw [List.find?_cons_of_neg _ (by simpa using hk2),
          List.find?_cons_of_neg _ (by simpa using hk2)]
        exact pyLookup_pyDictSet_other rest k k2 v hne

/-- A fold of container writes that never touches `key` preserves its
lookup. -/
theorem foldl_pyDictSet_notouch :
    ∀ (l : List (String × String)) (m : List (String × Option String))
      (key : String),
      (∀ q ∈ l, pyCapitalize q.1 ≠ key) →
      pyLookup (l.foldl
          (fun m2 kv => pyDictSet m2 (pyCapitalize kv.1) (some kv.2)) m) key
        = pyLookup m key
  | [], _, _, _ => rfl
  | q :: rest, m, key, h => by
    have h1 : pyCapitalize q.1 ≠ key := h q (List.mem_cons_self _ _)
    have hrec := foldl_pyDictSet_notouch rest
      (pyDictSet m (pyCapitalize q.1) (some q.2)) key
      (fun p hp => h p (List.mem_cons_of_mem _ hp))
    simp only [List.foldl_cons]
    rw [hrec]
    exact pyLookup_pyDictSet_other m (pyCapitalize q.1) key (some q.2) h1

/-- When `(k, v)` is the unique entry of the fold whose name capitalizes to
`pyCapitalize k`, the final lookup at that capitalized name is `v`. -/
theorem foldl_pyDictSet_write :
    ∀ (l : List (String × String)) (m : List (String × Option String))
      (k v : String),
      (k, v) ∈ l →
      (∀ q ∈ l, pyCapitalize q.1 = pyCapitalize k → q = (k, v)) →
      pyLookup (l.foldl
          (fun m2 kv => pyDictSet m2 (pyCapitalize kv.1) (some kv.2)) m)
        (pyCapitalize k) = some (some v)
  | [], _, _, _, hmem, _ => absurd hmem (by simp)
  | q :: rest, m, k, v, hmem, huniq => by
    by_cases hqr : (k, v) ∈ rest
    · exact foldl_pyDictSet_write rest _ k v hqr
        (fun p hp hcap => huniq p (List.mem_cons_of_mem _ hp) hcap)
    · have hq : q = (k, v) := by
        rcases List.mem_cons.mp hmem with he | hr
        · exact he.symm
        · exact absurd hr hqr
      subst hq
      simp only [List.foldl_cons]
      have hnot : ∀ p ∈ rest, pyCapitalize p.1 ≠ pyCapitalize k := by
        intro p hp hcap
        have heq := huniq p (List.mem_cons_of_mem _ hp) hcap
        exact hqr (heq ▸ hp)
      rw [foldl_pyDictSet_notouch rest _ _ hnot]
      exact pyLookup_pyDictSet_self m (pyCapitalize k) (some v)

/-- **C9 counterexample**: with the single environment variable
`CONTAINER_VERSION` set to `1.0`, the metadata dictionary has no entry
under the suffix name `VERSION`: the value lands under
`Container_version`, the full variable name capitalized. -/
theorem get_metadata_no_suffix_entry :
    pyLookup (mergeContainerVars baseMeta [("CONTAINER_VERSION", "1.0")])
      "VERSION" = none ∧
    pyLookup (mergeContainerVars baseMeta [("CONTAINER_VERSION", "1.0")])
      "Container_version" = some (some "1.0") := by
  constructor
  · rfl
  · rfl

/-- **C9 (amended)**: every environment variable whose name begins with
`CONTAINER_` lands in the metadata dictionary under its full name
capitalized — first character uppercased, the remainder lowercased — mapped
to its value, provided it is the unique matching variable with that
capitalized name. -/
theorem get_metadata_container_capitalized
    (meta : List (String × Option String)) (environ : List (String × String))
    (k v : String) (hk : (k, v) ∈ environ)
    (hpre : pyStartsWith k "CONTAINER_" = true)
    (huniq : ∀ q ∈ environ, pyStartsWith q.1 "CONTAINER_" = true →
      pyCapitalize q.1 = pyCapitalize k → q = (k, v)) :
    pyLookup (mergeContainerVars meta environ) (pyCapitalize k)
      = some (some v) := by
  unfold mergeContainerVars
  apply foldl_pyDictSet_write
  · exact List.mem_filter.mpr ⟨hk, hpre⟩
  · intro q hq hcap
    obtain ⟨hqmem, hqpre⟩ := List.mem_filter.mp hq
    exact huniq q hqmem hqpre hcap

/-- Witness for `get_metadata_container_capitalized` at a concrete
environment. -/
theorem get_metadata_container_capitalized_witness :
    pyLookup (mergeContainerVars baseMeta [("CONTAINER_VERSION", "1.0")])
      (pyCapitalize "CONTAINER_VERSION") = some (some "1.0") :=
  get_metadata_container_capitalized baseMeta [("CONTAINER_VERSION", "1.0")]
    "CONTAINER_VERSION" "1.0" (by decide) (by decide) (by decide)

end ImgSpec
